import Mathlib

/-!
Verification of the retrieval, caching and learning-feedback engine of the
ai-sales-coach repository.  The Python sources under `server/` are shallowly
embedded: Python `dict` / `OrderedDict` become association lists (kept in
insertion order, which for the `OrderedDict` of `cache.py` is recency order:
head = least recently used, last = most recently used), Python floats that
carry scores and rates become `ℚ`, wall-clock timestamps become `Nat`
seconds, and calls to external collaborators (ChromaDB, the LLM service,
the SQL store) are passed in as explicit parameters.
-/

namespace SalesCoach

/-! ### Association-list primitives (Python dict / OrderedDict) -/

/-- Key membership test of an association list (Python `key in d`). -/
def containsKey {α : Type} (l : List (String × α)) (k : String) : Bool :=
  l.any (fun p => p.1 = k)

/-- Lookup of a key (Python `d[key]` / `d.get(key)`), first binding wins. -/
def lookupKey {α : Type} (l : List (String × α)) (k : String) : Option α :=
  (l.find? (fun p => p.1 = k)).map Prod.snd

/-- Removal of a key (Python `del d[key]`). -/
def eraseKey {α : Type} (l : List (String × α)) (k : String) : List (String × α) :=
  l.filter (fun p => ¬ (p.1 = k))

/-- Assignment `d[key] = v`: update in place when the key exists (keeping its
position, as `OrderedDict` assignment does), append at the end otherwise. -/
def dictSet {α : Type} (l : List (String × α)) (k : String) (v : α) : List (String × α) :=
  if containsKey l k then l.map (fun p => if p.1 = k then (k, v) else p) else l ++ [(k, v)]

/-! ### CacheLayer — `server/cache.py`, class `LRUCache`

`self.cache : OrderedDict` is the list `cache` (head = oldest binding, i.e.
least recently used), `self.timestamps` is the list `timestamps`, and
`datetime.now()` is the explicit parameter `now` (seconds).  `move_to_end`
reinserts the binding at the end. -/

structure LRUCache (α : Type) where
  max_size : Nat
  ttl : Nat
  cache : List (String × α)
  timestamps : List (String × Nat)

/-- Python `OrderedDict.move_to_end(key)`. -/
def moveToEnd {α : Type} (l : List (String × α)) (k : String) : List (String × α) :=
  match lookupKey l k with
  | some v => eraseKey l k ++ [(k, v)]
  | none => l

/-- `LRUCache.delete`: remove the key from both dicts. -/
def LRUCache.delete {α : Type} (c : LRUCache α) (k : String) : LRUCache α :=
  { c with cache := eraseKey c.cache k, timestamps := eraseKey c.timestamps k }

/-- `LRUCache.get`: miss on absent key; evict and miss when the entry is older
than `ttl` seconds; otherwise move to the most-recently-used end and return. -/
def LRUCache.get {α : Type} (c : LRUCache α) (k : String) (now : Nat) :
    Option α × LRUCache α :=
  if containsKey c.cache k then
    match lookupKey c.timestamps k with
    | some ts =>
      if now - ts > c.ttl then (none, c.delete k)
      else (lookupKey c.cache k, { c with cache := moveToEnd c.cache k })
    | none => (lookupKey c.cache k, { c with cache := moveToEnd c.cache k })
  else (none, c)

/-- `LRUCache.set`: refresh an existing key in place (moved to the end), else
evict the head (oldest) binding when at capacity; then write value and
timestamp. -/
def LRUCache.set {α : Type} (c : LRUCache α) (k : String) (v : α) (now : Nat) :
    LRUCache α :=
  let c1 : LRUCache α :=
    if containsKey c.cache k then { c with cache := moveToEnd c.cache k }
    else if c.cache.length ≥ c.max_size then
      match c.cache with
      | oldest :: _ => c.delete oldest.1
      | [] => c
    else c
  { c1 with cache := dictSet c1.cache k v, timestamps := dictSet c1.timestamps k now }

/-- `LRUCache.size`. -/
def LRUCache.size {α : Type} (c : LRUCache α) : Nat := c.cache.length

/-- A concrete cache (ttl 10 seconds) holding one entry written at time 0. -/
def cacheW : LRUCache Nat := ⟨2, 10, [("a", 5)], [("a", 0)]⟩

/-! ### ContentIndex — `server/knowledge_base.py`, class `KnowledgeBase`

`self.contents : Dict[str, TrainingContent]` and
`self.search_index : Dict[str, List[str]]` are association lists; the SQL
store of `TrainingContentModel` rows is a further association list `store`
passed explicitly; the ChromaDB hit list is passed as the metadata ids of
the hits (`none` for a hit whose metadata carries no id). -/

/-- `server/models.py`, enum `ContentType`. -/
inductive ContentType where
  | training_material
  | sales_script
  | qa
  | best_practice
deriving DecidableEq

/-- `server/models.py`, class `TrainingContent`.  Scores are `ℚ`; the
`created_at` timestamp, which no modelled operation reads, is omitted. -/
structure TrainingContent where
  id : String
  title : String
  content : String
  content_type : ContentType
  tags : List String
  created_by : String
  usage_count : Nat
  effectiveness_score : Option ℚ
deriving DecidableEq

/-- Python `str.lower()`: lower each character. -/
def lowerStr (s : String) : String := String.mk (s.toList.map Char.toLower)

/-- Character-list prefix test. -/
def isPrefixChars : List Char → List Char → Bool
  | [], _ => true
  | _ :: _, [] => false
  | c :: cs, d :: ds => c = d && isPrefixChars cs ds

/-- Character-list substring test: the needle is a prefix of some suffix. -/
def containsChars (needle : List Char) : List Char → Bool
  | [] => isPrefixChars needle []
  | c :: rest => isPrefixChars needle (c :: rest) || containsChars needle rest

/-- Python substring test `needle in hay` on strings. -/
def strContains (hay needle : String) : Bool := containsChars needle.toList hay.toList

/-- In-memory state of `KnowledgeBase`: the content mirror and the
tag → content-ids index. -/
structure KnowledgeBase where
  contents : List (String × TrainingContent)
  search_index : List (String × List String)

/-- One loop step of `add_content`'s index update:
`if tag not in self.search_index: self.search_index[tag] = []` followed by
`self.search_index[tag].append(content_id)`. -/
def indexAdd (idx : List (String × List String)) (tag id : String) :
    List (String × List String) :=
  if containsKey idx tag then
    idx.map (fun p => if p.1 = tag then (p.1, p.2 ++ [id]) else p)
  else idx ++ [(tag, [id])]

/-- `KnowledgeBase.add_content` for a content whose id is already assigned:
persist (an INSERT with a duplicate primary key raises, is logged, and
leaves the store unchanged), mirror the item, and append its id under each
of its tags.  The vector-collaborator call does not touch this state. -/
def add_content (kb : KnowledgeBase) (store : List (String × TrainingContent))
    (c : TrainingContent) : KnowledgeBase × List (String × TrainingContent) :=
  (⟨dictSet kb.contents c.id c,
      c.tags.foldl (fun idx t => indexAdd idx t c.id) kb.search_index⟩,
   if containsKey store c.id then store else store ++ [(c.id, c)])

/-- `KnowledgeBase.get_content`: serve from the mirror when present,
otherwise load the row from the store and cache it in the mirror (note:
without touching the tag index). -/
def get_content (kb : KnowledgeBase) (store : List (String × TrainingContent))
    (content_id : String) : Option TrainingContent × KnowledgeBase :=
  if containsKey kb.contents content_id then (lookupKey kb.contents content_id, kb)
  else
    match lookupKey store content_id with
    | some c => (some c, { kb with contents := dictSet kb.contents content_id c })
    | none => (none, kb)

/-- The record mutation of `update_effectiveness`:
`self.contents[content_id].effectiveness_score = score` and
`self.contents[content_id].usage_count += 1`. -/
def bumpEff (score : ℚ) (c : TrainingContent) : TrainingContent :=
  { c with effectiveness_score := some score, usage_count := c.usage_count + 1 }

/-- `KnowledgeBase.update_effectiveness`: set the score and bump the usage
count on the mirrored record only. -/
def update_effectiveness (kb : KnowledgeBase) (content_id : String) (score : ℚ) :
    KnowledgeBase :=
  if containsKey kb.contents content_id then
    { kb with contents := kb.contents.map (fun p =>
        if p.1 = content_id then (p.1, bumpEff score p.2) else p) }
  else kb

/-- The type filter of `search_content`:
`if content_type and x.content_type != content_type: continue`. -/
def typeAllowed (filter : Option ContentType) (c : TrainingContent) : Bool :=
  match filter with
  | some t => c.content_type = t
  | none => true

/-- Steps 2–3 of `search_content`: resolve each vector hit's metadata id
against the store (skipping hits without an id or without a row) and drop
rows failing the type filter. -/
def resolveHits (store : List (String × TrainingContent)) (filter : Option ContentType) :
    List (Option String) → List TrainingContent
  | [] => []
  | none :: hits => resolveHits store filter hits
  | some id :: hits =>
    match lookupKey store id with
    | some c =>
      if typeAllowed filter c then c :: resolveHits store filter hits
      else resolveHits store filter hits
    | none => resolveHits store filter hits

/-- The keyword-fallback predicate of `search_content`: the lowered query
occurs in the lowered title, body, or some lowered tag. -/
def keywordMatch (query : String) (c : TrainingContent) : Bool :=
  strContains (lowerStr c.title) (lowerStr query) ||
  strContains (lowerStr c.content) (lowerStr query) ||
  c.tags.any (fun tg => strContains (lowerStr tg) (lowerStr query))

/-- Python sort-key component `x.effectiveness_score or 0` (both a missing
score and a literal score 0 yield 0). -/
def effVal (c : TrainingContent) : ℚ := c.effectiveness_score.getD 0

/-- The descending ranking order of `search_content`: `searchGE a b` holds
when `a` may be listed no later than `b` under the Python key
`(effectiveness_score or 0, usage_count)` with `reverse=True`. -/
def searchGE (a b : TrainingContent) : Prop :=
  effVal b < effVal a ∨ (effVal a = effVal b ∧ b.usage_count ≤ a.usage_count)

instance : DecidableRel searchGE := fun a b =>
  inferInstanceAs
    (Decidable (effVal b < effVal a ∨ (effVal a = effVal b ∧ b.usage_count ≤ a.usage_count)))

instance : IsTotal TrainingContent searchGE := by
  constructor
  intro a b
  unfold searchGE
  rcases lt_trichotomy (effVal a) (effVal b) with h | h | h
  · exact Or.inr (Or.inl h)
  · rcases Nat.le_total b.usage_count a.usage_count with hu | hu
    · exact Or.inl (Or.inr ⟨h, hu⟩)
    · exact Or.inr (Or.inr ⟨h.symm, hu⟩)
  · exact Or.inl (Or.inl h)

instance : IsTrans TrainingContent searchGE := by
  constructor
  intro a b c hab hbc
  unfold searchGE at *
  rcases hab with h1 | ⟨h1, hu1⟩
  · rcases hbc with h2 | ⟨h2, hu2⟩
    · exact Or.inl (h2.trans h1)
    · exact Or.inl (h2 ▸ h1)
  · rcases hbc with h2 | ⟨h2, hu2⟩
    · exact Or.inl (h1 ▸ h2)
    · exact Or.inr ⟨h1.trans h2, hu2.trans hu1⟩

/-- `KnowledgeBase.search_content` on a result-cache miss: resolve the
vector hits, fall back to the case-insensitive keyword scan of the mirror
when they resolve to nothing, and rank.  Python's `sorted(..., reverse=True)`
is a stable descending sort, modelled by the stable `List.insertionSort`
with the non-strict descending relation `searchGE`. -/
def search_content (kb : KnowledgeBase) (store : List (String × TrainingContent))
    (vectorHits : List (Option String)) (query : String)
    (content_type : Option ContentType) : List TrainingContent :=
  let results := resolveHits store content_type vectorHits
  let results2 :=
    if results.isEmpty then
      (kb.contents.map Prod.snd).filter
        (fun c => typeAllowed content_type c && keywordMatch query c)
    else results
  List.insertionSort searchGE results2

/-- The ids registered under a tag of the search index. -/
def idsOf (idx : List (String × List String)) (t : String) : List String :=
  (lookupKey idx t).getD []

/-- The spec invariant on the tag index: tag `t` maps to id `i` exactly when
the mirrored item stored under `i` carries tag `t`. -/
def tagConsistent (kb : KnowledgeBase) : Prop :=
  ∀ t i, i ∈ idsOf kb.search_index t ↔
    ∃ c, lookupKey kb.contents i = some c ∧ t ∈ c.tags

/-- Concrete content: effectiveness 4, usage 10. -/
def itemA : TrainingContent :=
  ⟨"a", "price objection handling", "body a", ContentType.best_practice,
    ["price"], "trainer", 10, some 4⟩

/-- Concrete content: effectiveness 4, usage 20. -/
def itemB : TrainingContent :=
  ⟨"b", "feature doubts", "body b", ContentType.best_practice,
    ["feature"], "trainer", 20, some 4⟩

/-- Concrete content: effectiveness 5, usage 1. -/
def itemC : TrainingContent :=
  ⟨"c", "trust building", "body c", ContentType.qa, ["trust"], "trainer", 1, some 5⟩

/-- Concrete content: effectiveness 3, usage 999. -/
def itemD : TrainingContent :=
  ⟨"d", "cold call openers", "body d", ContentType.qa, ["cold"], "trainer", 999, some 3⟩

/-- Concrete content carrying the single tag `t`. -/
def itemT : TrainingContent :=
  ⟨"i1", "tagged item", "body", ContentType.qa, ["t"], "trainer", 0, none⟩

/-! ### LearningAnalyzer — `server/learning_system.py`, class `LearningSystem`

`analyze_conversation` is modelled as the list of insights it builds and
returns; the append-only persistence of that list is not needed by the
claims.  Python float formatting inside the f-string content is abstracted
by `toString` on `ℚ`; no claim inspects the content text. -/

/-- `server/models.py`, class `ConversationMessage` (timestamp and metadata,
which no modelled rule reads, are omitted). -/
structure ConversationMessage where
  role : String
  content : String
deriving DecidableEq

/-- `server/models.py`, class `Conversation`. -/
structure Conversation where
  id : Option String
  sales_id : String
  customer_type : Option String
  scenario : Option String
  messages : List ConversationMessage
  feedback_score : Option ℚ
deriving DecidableEq

/-- `server/models.py`, class `LearningInsight` (id / sales_id, assigned only
at persistence time, and created_at are omitted). -/
structure LearningInsight where
  insight_type : String
  content : String
  confidence : ℚ
  related_conversations : List String
deriving DecidableEq

/-- Python string slice `s[:n]`. -/
def strTake (s : String) (n : Nat) : String := String.mk (s.toList.take n)

/-- The `problem_keywords` table of `_identify_common_issues`. -/
def problem_keywords : List (String × List String) :=
  [("价格异议", ["贵", "价格", "费用", "成本", "预算"]),
   ("功能疑虑", ["能", "可以", "功能", "特性", "支持"]),
   ("信任问题", ["真的", "确定", "保证", "可靠", "信任"])]

/-- `LearningSystem._identify_common_issues`. -/
def identify_common_issues (conversation : Conversation) : List String :=
  if conversation.messages.isEmpty then []
  else
    let user_messages := conversation.messages.filter (fun m => m.role = "user")
    let assistant_messages := conversation.messages.filter (fun m => m.role = "assistant")
    let issues1 :=
      if user_messages.length > 10 then ["对话过长，可能表示需求未及时满足"] else []
    let questions :=
      (user_messages.filter (fun m => strContains m.content "?")).map
        (fun m => lowerStr m.content)
    let issues2 :=
      if questions.length > 2 ∧
          ((questions.dedup.length : ℚ) < (questions.length : ℚ) * (7 / 10)) then
        ["发现重复提问模式，建议优化话术"]
      else []
    let issues3 :=
      if user_messages.length > 1 ∧ assistant_messages.length > 0 then
        ["建议关注响应速度，及时回复客户"]
      else []
    let all_user_text :=
      String.intercalate " " (user_messages.map (fun m => lowerStr m.content))
    let detected :=
      (problem_keywords.filter (fun pk => pk.2.any
        (fun kw => strContains all_user_text kw))).map Prod.fst
    let issues4 :=
      if detected.isEmpty then []
      else ["检测到常见问题类型：" ++ String.intercalate ", " detected ++ "，建议针对性培训"]
    issues1 ++ issues2 ++ issues3 ++ issues4

/-- `[conversation.id] if conversation.id else []` (both `None` and the empty
string are falsy). -/
def idList (conversation : Conversation) : List String :=
  match conversation.id with
  | some i => if i = "" then [] else [i]
  | none => []

/-- Step 1 of `analyze_conversation` (lines 22–38): the quality insights.
The guard `if conversation.feedback_score:` is Python truthiness: it passes
only for a present, nonzero score. -/
def feedbackInsights (conversation : Conversation) : List LearningInsight :=
  match conversation.feedback_score with
  | none => []
  | some s =>
    if s ≠ 0 then
      if s ≥ 4.5 then
        [⟨"strength", "此次对话表现优秀（" ++ toString s ++ "分），建议记录为最佳实践",
          0.9, idList conversation⟩]
      else if s ≤ 2.5 then
        [⟨"improvement", "此次对话需要改进（" ++ toString s ++ "分），建议加强相关培训",
          0.85, idList conversation⟩]
      else []
    else []

/-- `LearningSystem.analyze_conversation`, as the returned insight list:
the quality insights followed by one pattern insight (confidence 0.75) per
detected common issue. -/
def analyze_conversation (conversation : Conversation) : List LearningInsight :=
  feedbackInsights conversation ++
    (identify_common_issues conversation).map (fun issue => ⟨"pattern", issue, 0.75, []⟩)

/-! ### EffectivenessTracker — `server/script_generator.py`, class
`ScriptGenerator`

`self.scripts` is the mirror association list `scripts`; the
`SalesScriptModel` rows are the association list `store`; the LLM responses
of `_generate_variants` are passed as one `Option String` per style call
(`none` = the call raised). -/

/-- `server/models.py`, class `SalesScript` (created_at omitted; rates
are `ℚ`). -/
structure SalesScript where
  id : String
  title : String
  script : String
  scenario : String
  customer_type : Option String
  tags : List String
  created_by : String
  success_rate : ℚ
  usage_count : Nat
  variants : List String
deriving DecidableEq

/-- `ScriptGenerator.get_script`: serve from the mirror, else load the row
from the store and cache it in the mirror. -/
def get_script (scripts store : List (String × SalesScript)) (script_id : String) :
    Option SalesScript × List (String × SalesScript) :=
  if containsKey scripts script_id then (lookupKey scripts script_id, scripts)
  else
    match lookupKey store script_id with
    | some s => (some s, dictSet scripts script_id s)
    | none => (none, scripts)

/-- `ScriptGenerator.update_success_rate`: load the script (returning with no
mutation when it exists nowhere), bump the usage count to `n`, fold the
boolean outcome into the running mean, persist the two fields when the row
exists, and write the mirror.  Returns the new `(mirror, store)`. -/
def update_success_rate (scripts store : List (String × SalesScript))
    (script_id : String) (success : Bool) :
    List (String × SalesScript) × List (String × SalesScript) :=
  match get_script scripts store script_id with
  | (none, scripts1) => (scripts1, store)
  | (some script, scripts1) =>
    let n : Nat := script.usage_count + 1
    let newRate : ℚ :=
      if success then (script.success_rate * ((n : ℚ) - 1) + 1) / (n : ℚ)
      else (script.success_rate * ((n : ℚ) - 1)) / (n : ℚ)
    let script1 : SalesScript := { script with usage_count := n, success_rate := newRate }
    let store1 :=
      if containsKey store script_id then dictSet store script_id script1 else store
    (dictSet scripts1 script_id script1, store1)

/-- A sequence of `update_success_rate` calls on the same script id. -/
def runUpdates (scripts store : List (String × SalesScript)) (script_id : String) :
    List Bool → List (String × SalesScript) × List (String × SalesScript)
  | [] => (scripts, store)
  | b :: bs =>
    let r := update_success_rate scripts store script_id b
    runUpdates r.1 r.2 script_id bs

/-- A fresh script: zero uses, zero rate. -/
def scriptFresh : SalesScript := ⟨"s", "t", "body", "scn", none, [], "u", 0, 0, []⟩

/-- The loop body of `_generate_variants`: successive LLM responses are
consumed until one call raises, which aborts the loop (`none`), discarding
the variants accumulated so far. -/
def variantLoop : List (Option String) → Option (List String)
  | [] => some []
  | none :: _ => none
  | some v :: rest => (variantLoop rest).map (fun vs => v :: vs)

/-- The `except` fallback of `_generate_variants`: three truncated copies of
the base script. -/
def fallbackVariants (script : String) : List String :=
  ["变体1（正式版）：" ++ strTake script 100 ++ "...",
   "变体2（友好版）：" ++ strTake script 100 ++ "...",
   "变体3（简洁版）：" ++ strTake script 100 ++ "..."]

/-- `ScriptGenerator._generate_variants`: one LLM outcome per style (the
source iterates over the three styles); any failure replaces the whole
accumulated list by the fallbacks; at most 3 variants are returned. -/
def generate_variants (outcomes : List (Option String)) (script : String) :
    List String :=
  (match variantLoop outcomes with
   | some vs => vs
   | none => fallbackVariants script).take 3

/-! ### ContextAssembler — `server/conversation_engine.py`, class
`ConversationEngine` -/

/-- `ConversationEngine._build_context`: up to three truncated content
blocks, then a scenario line quoting `history[-1]` — the LAST element of the
history list (a missing scenario prints as Python `None`). -/
def build_context (content : List TrainingContent) (history : List Conversation) :
    String :=
  let parts := (content.take 3).map (fun item =>
    "培訓內容：" ++ item.title ++ "\n" ++ strTake item.content 200 ++ "...")
  let parts2 :=
    match history.getLast? with
    | some recent =>
      parts ++
        ["最近對話場景：" ++ (match recent.scenario with | some s => s | none => "None")]
    | none => parts
  String.intercalate "\n\n" parts2

/-- A conversation whose scenario is `pricing-call` (the most recent one of
the C8 history). -/
def convNew : Conversation := ⟨some "c2", "s1", none, some "pricing-call", [], none⟩

/-- A conversation whose scenario is `cold-call` (the older one of the C8
history). -/
def convOld : Conversation := ⟨some "c1", "s1", none, some "cold-call", [], none⟩

/-- A conversation with a present feedback score of exactly 0. -/
def convZero : Conversation := ⟨some "c0", "s1", none, none, [], some 0⟩

/-- A conversation with feedback score 5 and no messages. -/
def convFive : Conversation := ⟨some "c5", "s1", none, none, [], some 5⟩

theorem containsKey_eq_false_iff {α : Type} (l : List (String × α)) (k : String) :
    containsKey l k = false ↔ k ∉ l.map Prod.fst := by
  induction l with
  | nil => simp [containsKey]
  | cons p rest ih =>
    simp only [containsKey, List.any_cons, List.map_cons, List.mem_cons] at *
    constructor
    · intro h
      rcases Bool.or_eq_false_iff.mp h with ⟨h1, h2⟩
      intro hc
      rcases hc with hc | hc
      · exact absurd hc.symm (by simpa using h1)
      · exact (ih.mp h2) hc
    · intro h
      apply Bool.or_eq_false_iff.mpr
      constructor
      · simpa using fun he => h (Or.inl he.symm)
      · exact ih.mpr (fun hc => h (Or.inr hc))

theorem containsKey_eq_true_iff {α : Type} (l : List (String × α)) (k : String) :
    containsKey l k = true ↔ k ∈ l.map Prod.fst := by
  rcases h : containsKey l k with _ | _
  · simp [(containsKey_eq_false_iff l k).mp h]
  · simp only [true_iff]
    by_contra hmem
    have := (containsKey_eq_false_iff l k).mpr hmem
    rw [h] at this
    exact Bool.true_eq_false.mp this

theorem lookupKey_eq_none_of_not_contains {α : Type} {l : List (String × α)} {k : String}
    (h : containsKey l k = false) : lookupKey l k = none := by
  have hmem := (containsKey_eq_false_iff l k).mp h
  unfold lookupKey
  rw [List.find?_eq_none.mpr]
  · rfl
  · intro p hp
    simp only [decide_eq_true_eq]
    intro he
    exact hmem (by rw [← he]; exact List.mem_map_of_mem Prod.fst hp)

theorem containsKey_of_lookupKey_some {α : Type} {l : List (String × α)} {k : String} {v : α}
    (h : lookupKey l k = some v) : containsKey l k = true := by
  by_contra hc
  have : containsKey l k = false := by
    rcases hcc : containsKey l k with _ | _
    · rfl
    · exact absurd hcc hc
  rw [lookupKey_eq_none_of_not_contains this] at h
  exact Option.noConfusion h

theorem eraseKey_of_not_mem {α : Type} {l : List (String × α)} {k : String}
    (h : k ∉ l.map Prod.fst) : eraseKey l k = l := by
  induction l with
  | nil => rfl
  | cons p rest ih =>
    simp only [List.map_cons, List.mem_cons] at h
    push_neg at h
    unfold eraseKey at *
    simp only [List.filter_cons]
    rw [if_pos (by simpa using fun he => h.1 he.symm)]
    rw [ih h.2]

theorem eraseKey_cons_self {α : Type} {rest : List (String × α)} {k : String} {v : α}
    (h : k ∉ rest.map Prod.fst) : eraseKey ((k, v) :: rest) k = rest := by
  unfold eraseKey
  simp only [List.filter_cons]
  rw [if_neg (by simp)]
  exact eraseKey_of_not_mem h

theorem containsKey_eraseKey_self {α : Type} (l : List (String × α)) (k : String) :
    containsKey (eraseKey l k) k = false := by
  apply (containsKey_eq_false_iff _ _).mpr
  intro hmem
  rcases List.mem_map.mp hmem with ⟨p, hp, hpk⟩
  have := List.of_mem_filter hp
  simp only [decide_eq_true_eq] at this
  exact this hpk

theorem length_eraseKey {α : Type} {l : List (String × α)} {k : String}
    (hnd : (l.map Prod.fst).Nodup) (h : containsKey l k = true) :
    (eraseKey l k).length + 1 = l.length := by
  induction l with
  | nil => simp [containsKey] at h
  | cons p rest ih =>
    simp only [List.map_cons, List.nodup_cons] at hnd
    by_cases hk : p.1 = k
    · have : k ∉ rest.map Prod.fst := by rw [← hk]; exact hnd.1
      have he : eraseKey (p :: rest) k = rest := by
        have hp : p = (k, p.2) := by rw [← hk]
        rw [hp]
        exact eraseKey_cons_self this
      rw [he, List.length_cons]
    · have hcr : containsKey rest k = true := by
        simp only [containsKey, List.any_cons] at h
        rcases Bool.or_eq_true_iff.mp h with h1 | h1
        · exact absurd (by simpa using h1) hk
        · exact h1
      unfold eraseKey at *
      simp only [List.filter_cons]
      rw [if_pos (by simpa using hk)]
      simp only [List.length_cons]
      rw [← ih hnd.2 hcr]

theorem lookupKey_isSome {α : Type} (l : List (String × α)) (k : String) :
    (lookupKey l k).isSome = containsKey l k := by
  induction l with
  | nil => rfl
  | cons p rest ih =>
    by_cases hp : p.1 = k
    · simp only [lookupKey, containsKey, List.any_cons]
      rw [List.find?_cons_of_pos _ (by simpa using hp)]
      simp [hp]
    · simp only [lookupKey, containsKey, List.any_cons]
      rw [List.find?_cons_of_neg _ (by simpa using hp)]
      have h2 := ih
      simp only [lookupKey, containsKey] at h2
      rw [h2]
      simp [hp]

theorem lookupKey_map_update {α : Type} (l : List (String × α)) (k k' : String) (v : α) :
    lookupKey (l.map (fun p => if p.1 = k then (k, v) else p)) k' =
      if k' = k then (if containsKey l k then some v else none)
      else lookupKey l k' := by
  induction l with
  | nil =>
    by_cases hk' : k' = k <;> simp [lookupKey, containsKey, hk']
  | cons p rest ih =>
    by_cases hp : p.1 = k
    · by_cases hk' : k' = k
      · simp only [List.map_cons, if_pos hp, lookupKey]
        rw [List.find?_cons_of_pos _ (by simpa using hk'.symm)]
        simp [containsKey, List.any_cons, hp, hk']
      · simp only [List.map_cons, if_pos hp, lookupKey]
        rw [List.find?_cons_of_neg _ (by simpa using fun he => hk' he.symm)]
        simp only [lookupKey] at ih
        rw [ih]
        simp only [if_neg hk']
        rw [List.find?_cons_of_neg _
          (by simpa using fun he : p.1 = k' => hk' (by rw [← he, hp]))]
    · by_cases hk' : k' = k
      · simp only [List.map_cons, if_neg hp, lookupKey]
        rw [List.find?_cons_of_neg _ (by simpa using fun he : p.1 = k' => hp (hk' ▸ he))]
        simp only [lookupKey] at ih
        rw [ih]
        simp only [if_pos hk']
        have hcc : containsKey (p :: rest) k = containsKey rest k := by
          simp [containsKey, List.any_cons, hp]
        rw [hcc]
      · simp only [List.map_cons, if_neg hp, lookupKey]
        by_cases hpk' : p.1 = k'
        · rw [List.find?_cons_of_pos _ (by simpa using hpk'),
            List.find?_cons_of_pos _ (by simpa using hpk')]
          simp [hk']
        · rw [List.find?_cons_of_neg _ (by simpa using hpk'),
            List.find?_cons_of_neg _ (by simpa using hpk')]
          simp only [lookupKey] at ih
          rw [ih]
          simp [hk']

theorem lookupKey_dictSet {α : Type} (l : List (String × α)) (k k' : String) (v : α) :
    lookupKey (dictSet l k v) k' = if k' = k then some v else lookupKey l k' := by
  unfold dictSet
  by_cases h : containsKey l k = true
  · rw [if_pos (by simpa using h), lookupKey_map_update, h]
    by_cases hk' : k' = k <;> simp [hk']
  · have hf : containsKey l k = false := by
      rcases hcc : containsKey l k with _ | _
      · rfl
      · exact absurd hcc h
    rw [if_neg (by simp [hf])]
    unfold lookupKey
    rw [List.find?_append]
    by_cases hk' : k' = k
    · rw [hk']
      have : List.find? (fun p => p.1 = k) l = none := by
        have := lookupKey_eq_none_of_not_contains hf
        unfold lookupKey at this
        exact Option.map_eq_none.mp this
      rw [this]
      simp [List.find?]
    · by_cases hl : (List.find? (fun p => p.1 = k') l).isSome
      · rcases Option.isSome_iff_exists.mp hl with ⟨p, hp⟩
        rw [hp]
        simp [hk']
      · have hn : List.find? (fun p => p.1 = k') l = none :=
          Option.not_isSome_iff_eq_none.mp hl
        rw [hn]
        have hk2 : ¬ k = k' := fun he => hk' he.symm
        simp [List.find?, hk2, Option.or, hk']

theorem containsKey_dictSet {α : Type} (l : List (String × α)) (k k' : String) (v : α) :
    containsKey (dictSet l k v) k' = if k' = k then true else containsKey l k' := by
  rw [← lookupKey_isSome, lookupKey_dictSet]
  by_cases h : k' = k <;> simp [h, lookupKey_isSome]

theorem dictSet_of_not_contains {α : Type} {l : List (String × α)} {k : String} (v : α)
    (h : containsKey l k = false) : dictSet l k v = l ++ [(k, v)] := by
  unfold dictSet
  rw [if_neg (by simp [h])]

/-- C2: at capacity, `set` of an absent key evicts exactly the
least-recently-used binding (the head of the recency order) and appends the
new key at the most-recently-used end; concretely with capacity 2 the trace
`set(a,1); set(b,2); get(a); set(c,3)` leaves exactly the keys `a, c`. -/
theorem C2_set_evicts_lru :
    (∀ (α : Type) (c : LRUCache α) (k : String) (v : α) (now : Nat)
       (k0 : String) (v0 : α) (rest : List (String × α)),
       (c.cache.map Prod.fst).Nodup →
       c.cache = (k0, v0) :: rest →
       c.cache.length = c.max_size →
       containsKey c.cache k = false →
       (c.set k v now).cache.map Prod.fst = rest.map Prod.fst ++ [k]) ∧
    ((((LRUCache.set ⟨2, 3600, [], []⟩ "a" (1 : Nat) 0).set "b" 2 1).get "a" 2).2.set
        "c" 3 3).cache.map Prod.fst = ["a", "c"] := by
  constructor
  · intro α c k v now k0 v0 rest hnd hcache hlen hc
    have hk0rest : k0 ∉ rest.map Prod.fst := by
      rw [hcache, List.map_cons, List.nodup_cons] at hnd
      exact hnd.1
    have hrest_k : containsKey rest k = false := by
      rw [hcache] at hc
      simp only [containsKey, List.any_cons, Bool.or_eq_false_iff] at hc
      simpa [containsKey] using hc.2
    have hge : ((k0, v0) :: rest).length ≥ c.max_size := by
      rw [← hcache]
      exact hlen.ge
    unfold LRUCache.set
    rw [hc]
    simp only [Bool.false_eq_true, if_false, hcache, LRUCache.delete]
    rw [eraseKey_cons_self hk0rest, if_pos hge]
    show List.map Prod.fst (dictSet rest k v) = List.map Prod.fst rest ++ [k]
    rw [dictSet_of_not_contains v hrest_k, List.map_append]
    rfl
  · decide

/-- Witness for C2 at a concrete at-capacity cache. -/
theorem C2_set_evicts_lru_witness :
    ((⟨2, 3600, [("b", 2), ("a", 1)], [("b", 0), ("a", 0)]⟩ : LRUCache Nat).set
        "c" 3 1).cache.map Prod.fst = ["a", "c"] := by
  simpa using C2_set_evicts_lru.1 Nat
    ⟨2, 3600, [("b", 2), ("a", 1)], [("b", 0), ("a", 0)]⟩ "c" 3 1 "b" 2 [("a", 1)]
    (by decide) rfl rfl (by decide)

/-- C3: `get` on an absent key is a miss and leaves the cache unchanged; on a
key whose entry is older than `ttl` seconds it is a miss that removes the
entry from both dicts (the size genuinely decreases); otherwise it returns
the value and moves the key to the most-recently-used end.  An expired entry
is therefore never returned as a hit. -/
theorem C3_get_ttl :
    (∀ (α : Type) (c : LRUCache α) (k : String) (now : Nat),
       containsKey c.cache k = false → c.get k now = (none, c)) ∧
    (∀ (α : Type) (c : LRUCache α) (k : String) (now : Nat) (v : α) (ts : Nat),
       (c.cache.map Prod.fst).Nodup →
       lookupKey c.cache k = some v →
       lookupKey c.timestamps k = some ts →
       ((now - ts > c.ttl →
           (c.get k now).1 = none ∧
           containsKey (c.get k now).2.cache k = false ∧
           containsKey (c.get k now).2.timestamps k = false ∧
           (c.get k now).2.size + 1 = c.size) ∧
        (now - ts ≤ c.ttl →
           c.get k now = (some v, { c with cache := eraseKey c.cache k ++ [(k, v)] })))) := by
  constructor
  · intro α c k now hc
    unfold LRUCache.get
    rw [hc]
    simp
  · intro α c k now v ts hnd hv hts
    have hc : containsKey c.cache k = true := containsKey_of_lookupKey_some hv
    constructor
    · intro hexp
      have hget : c.get k now = (none, c.delete k) := by
        unfold LRUCache.get
        rw [hc, hts]
        simp [hexp]
      rw [hget]
      refine ⟨by simp, ?_, ?_, ?_⟩
      · simpa [LRUCache.delete] using containsKey_eraseKey_self c.cache k
      · simpa [LRUCache.delete] using containsKey_eraseKey_self c.timestamps k
      · simpa [LRUCache.delete, LRUCache.size] using length_eraseKey hnd hc
    · intro hfresh
      have hng : ¬ (now - ts > c.ttl) := by omega
      have hget : c.get k now = (some v, { c with cache := moveToEnd c.cache k }) := by
        unfold LRUCache.get
        rw [hc, hts]
        simp [hng, hv]
      rw [hget]
      unfold moveToEnd
      rw [hv]

/-- Witness for C3 at a concrete cache holding one expired entry. -/
theorem C3_get_ttl_witness :
    (cacheW.get "a" 20).1 = none ∧
      containsKey (cacheW.get "a" 20).2.cache "a" = false ∧
      containsKey (cacheW.get "a" 20).2.timestamps "a" = false ∧
      (cacheW.get "a" 20).2.size + 1 = cacheW.size :=
  (C3_get_ttl.2 Nat cacheW "a" 20 5 0 (by decide) rfl rfl).1 (by decide)

/-- C4: when the vector-query-and-resolve steps yield zero results, the
cache-miss path of `search_content` returns exactly the mirrored items
allowed by the type filter whose title, body, or some tag contains the
query case-insensitively; concretely a query equal to a substring of an
indexed item's title surfaces that item. -/
theorem C4_keyword_fallback :
    (∀ (kb : KnowledgeBase) (store : List (String × TrainingContent))
       (vectorHits : List (Option String)) (query : String)
       (content_type : Option ContentType),
       resolveHits store content_type vectorHits = [] →
       ∀ c, c ∈ search_content kb store vectorHits query content_type ↔
         (c ∈ kb.contents.map Prod.snd ∧
          typeAllowed content_type c = true ∧ keywordMatch query c = true)) ∧
    search_content ⟨[("a", itemA)], [("price", ["a"])]⟩ [] [] "objection" none =
      [itemA] := by
  constructor
  · intro kb store vectorHits query content_type hres c
    unfold search_content
    rw [hres]
    simp only [List.isEmpty_nil, if_true]
    rw [(List.perm_insertionSort searchGE _).mem_iff, List.mem_filter]
    simp [and_assoc]
  · decide

/-- Witness for C4 at a one-item mirror and an empty vector result. -/
theorem C4_keyword_fallback_witness :
    itemA ∈ search_content ⟨[("a", itemA)], [("price", ["a"])]⟩ [] [] "objection" none ↔
      (itemA ∈ [("a", itemA)].map Prod.snd ∧ typeAllowed none itemA = true ∧
        keywordMatch "objection" itemA = true) :=
  C4_keyword_fallback.1 ⟨[("a", itemA)], [("price", ["a"])]⟩ [] [] "objection" none rfl
    itemA

/-- C5: every result list of `search_content` is sorted by effectiveness
score descending (a missing score ranking lowest) with usage count
descending as tie-break; concretely `(eff 4, usage 20)` outranks
`(eff 4, usage 10)`, and `(eff 5, usage 1)` outranks `(eff 3, usage 999)`. -/
theorem C5_result_ranking :
    (∀ (kb : KnowledgeBase) (store : List (String × TrainingContent))
       (vectorHits : List (Option String)) (query : String)
       (content_type : Option ContentType),
       List.Sorted searchGE (search_content kb store vectorHits query content_type)) ∧
    search_content ⟨[], []⟩ [("a", itemA), ("b", itemB)] [some "a", some "b"] "q" none =
      [itemB, itemA] ∧
    search_content ⟨[], []⟩ [("c", itemC), ("d", itemD)] [some "d", some "c"] "q" none =
      [itemC, itemD] := by
  refine ⟨?_, by decide, by decide⟩
  intro kb store vectorHits query content_type
  unfold search_content
  exact List.sorted_insertionSort searchGE _

theorem lookupKey_map_adjust {α : Type} (l : List (String × α)) (k k' : String)
    (f : α → α) :
    lookupKey (l.map (fun p => if p.1 = k then (p.1, f p.2) else p)) k' =
      if k' = k then (lookupKey l k').map f else lookupKey l k' := by
  induction l with
  | nil => by_cases h : k' = k <;> simp [lookupKey, h]
  | cons p rest ih =>
    by_cases hp : p.1 = k
    · by_cases hpk' : p.1 = k'
      · have hk : k' = k := by rw [← hpk', hp]
        simp only [List.map_cons, if_pos hp, lookupKey]
        rw [List.find?_cons_of_pos _ (by simpa using hpk'),
          List.find?_cons_of_pos _ (by simpa using hpk')]
        simp [hk]
      · have hk : ¬ k' = k := fun he => hpk' (hp.trans he.symm)
        simp only [List.map_cons, if_pos hp, lookupKey]
        rw [List.find?_cons_of_neg _ (by simpa using hpk'),
          List.find?_cons_of_neg _ (by simpa using hpk')]
        simp only [lookupKey] at ih
        rw [ih]
    · by_cases hpk' : p.1 = k'
      · have hk : ¬ k' = k := fun he => hp (hpk'.trans he)
        simp only [List.map_cons, if_neg hp, lookupKey]
        rw [List.find?_cons_of_pos _ (by simpa using hpk'),
          List.find?_cons_of_pos _ (by simpa using hpk')]
        simp [hk]
      · simp only [List.map_cons, if_neg hp, lookupKey]
        rw [List.find?_cons_of_neg _ (by simpa using hpk'),
          List.find?_cons_of_neg _ (by simpa using hpk')]
        simp only [lookupKey] at ih
        rw [ih]

theorem lookupKey_append_map (idx : List (String × List String)) (tag id t : String) :
    lookupKey (idx.map (fun p => if p.1 = tag then (p.1, p.2 ++ [id]) else p)) t =
      if t = tag then (lookupKey idx t).map (fun l => l ++ [id]) else lookupKey idx t :=
  lookupKey_map_adjust idx tag t (fun l => l ++ [id])

theorem idsOf_indexAdd (idx : List (String × List String)) (tag id t : String) :
    idsOf (indexAdd idx tag id) t =
      if t = tag then idsOf idx t ++ [id] else idsOf idx t := by
  unfold indexAdd
  by_cases hc : containsKey idx tag = true
  · rw [if_pos hc]
    unfold idsOf
    rw [lookupKey_append_map]
    by_cases ht : t = tag
    · rw [if_pos ht, if_pos ht]
      have hs : (lookupKey idx t).isSome = true := by
        rw [ht, lookupKey_isSome]
        exact hc
      rcases Option.isSome_iff_exists.mp hs with ⟨ids, hids⟩
      rw [hids]
      rfl
    · rw [if_neg ht, if_neg ht]
  · have hf : containsKey idx tag = false := by
      rcases hcc : containsKey idx tag with _ | _
      · rfl
      · exact absurd hcc hc
    rw [if_neg hc]
    unfold idsOf lookupKey
    rw [List.find?_append]
    by_cases ht : t = tag
    · subst ht
      have hn : List.find? (fun p => p.1 = t) idx = none := by
        have := lookupKey_eq_none_of_not_contains hf
        unfold lookupKey at this
        exact Option.map_eq_none.mp this
      rw [hn]
      simp [List.find?, idsOf, lookupKey, hn]
    · have hn2 : List.find? (fun p => p.1 = t) [(tag, [id])] = none := by
        simp only [List.find?]
        rw [decide_eq_false (fun he : tag = t => ht he.symm)]
      rw [hn2]
      simp [if_neg ht]

theorem mem_idsOf_foldl (id : String) (tags : List String)
    (idx : List (String × List String)) (t i : String) :
    i ∈ idsOf (tags.foldl (fun ix tg => indexAdd ix tg id) idx) t ↔
      (i ∈ idsOf idx t ∨ (t ∈ tags ∧ i = id)) := by
  induction tags generalizing idx with
  | nil => simp
  | cons tg rest ih =>
    rw [List.foldl_cons, ih, idsOf_indexAdd]
    by_cases ht : t = tg <;> simp [ht] <;> tauto

/-- C9 counterexample: starting from an empty mirror, `get_content` of an id
present only in the store mirrors the item without indexing its tags, so the
tag-index invariant fails after that single operation. -/
theorem C9_tag_index_cex :
    ¬ tagConsistent (get_content ⟨[], []⟩ [("i1", itemT)] "i1").2 := by
  intro h
  exact absurd ((h "t" "i1").mpr ⟨itemT, by decide, by decide⟩) (by decide)

/-- C9 amended: the tag index stays consistent with the mirror under
`add_content` with a fresh id, under `update_effectiveness`, and under
`get_content` when the id is already mirrored or absent from the store
(`search_content` does not mutate either structure); `get_content` that
loads an item from the store breaks it, as the counterexample shows. -/
theorem C9_tag_index_consistency :
    (∀ (kb : KnowledgeBase) (store : List (String × TrainingContent))
       (c : TrainingContent),
       tagConsistent kb → containsKey kb.contents c.id = false →
       tagConsistent (add_content kb store c).1) ∧
    (∀ (kb : KnowledgeBase) (content_id : String) (score : ℚ),
       tagConsistent kb → tagConsistent (update_effectiveness kb content_id score)) ∧
    (∀ (kb : KnowledgeBase) (store : List (String × TrainingContent))
       (content_id : String),
       tagConsistent kb →
       (containsKey kb.contents content_id = true ∨ lookupKey store content_id = none) →
       tagConsistent (get_content kb store content_id).2) := by
  refine ⟨?_, ?_, ?_⟩
  · intro kb store c hcons hfresh t i
    show i ∈ idsOf (c.tags.foldl (fun idx tg => indexAdd idx tg c.id) kb.search_index) t ↔
      ∃ c', lookupKey (dictSet kb.contents c.id c) i = some c' ∧ t ∈ c'.tags
    rw [mem_idsOf_foldl, lookupKey_dictSet]
    by_cases hi : i = c.id
    · rw [if_pos hi]
      constructor
      · rintro (hmem | ⟨ht, _⟩)
        · exfalso
          rcases (hcons t i).mp hmem with ⟨c0, hc0, _⟩
          rw [hi, lookupKey_eq_none_of_not_contains hfresh] at hc0
          exact Option.noConfusion hc0
        · exact ⟨c, rfl, ht⟩
      · rintro ⟨c', hc', ht⟩
        injection hc' with h2
        exact Or.inr ⟨by rw [← h2] at ht; exact ht, hi⟩
    · rw [if_neg hi]
      constructor
      · rintro (hmem | ⟨_, he⟩)
        · exact (hcons t i).mp hmem
        · exact absurd he hi
      · intro hex
        exact Or.inl ((hcons t i).mpr hex)
  · intro kb content_id score hcons t i
    unfold update_effectiveness
    by_cases hc : containsKey kb.contents content_id = true
    · rw [if_pos hc]
      show i ∈ idsOf kb.search_index t ↔
        ∃ c', lookupKey (kb.contents.map (fun p => if p.1 = content_id then
          (p.1, bumpEff score p.2) else p)) i = some c' ∧ t ∈ c'.tags
      rw [lookupKey_map_adjust kb.contents content_id i (bumpEff score)]
      constructor
      · intro hmem
        rcases (hcons t i).mp hmem with ⟨c0, hc0, ht0⟩
        by_cases hi : i = content_id
        · refine ⟨bumpEff score c0, ?_, ht0⟩
          rw [if_pos hi, hc0]
          rfl
        · refine ⟨c0, ?_, ht0⟩
          rw [if_neg hi]
          exact hc0
      · rintro ⟨c', hc', ht'⟩
        apply (hcons t i).mpr
        by_cases hi : i = content_id
        · rw [if_pos hi] at hc'
          rcases Option.map_eq_some'.mp hc' with ⟨c0, hc0, hfc0⟩
          refine ⟨c0, hc0, ?_⟩
          rw [← hfc0] at ht'
          exact ht'
        · rw [if_neg hi] at hc'
          exact ⟨c', hc', ht'⟩
    · rw [if_neg hc]
      exact hcons t i
  · intro kb store content_id hcons hcase t i
    unfold get_content
    by_cases hc : containsKey kb.contents content_id = true
    · rw [if_pos hc]
      exact hcons t i
    · rw [if_neg hc]
      rcases hcase with hcase | hcase
      · exact absurd hcase hc
      · rw [hcase]
        exact hcons t i

/-- Witness for the C9 preservation theorem: adding a fresh item to the
empty index yields a consistent index. -/
theorem C9_tag_index_consistency_witness :
    tagConsistent (add_content ⟨[], []⟩ [] itemT).1 :=
  C9_tag_index_consistency.1 ⟨[], []⟩ [] itemT
    (by intro t i; simp [idsOf, lookupKey, List.find?]) (by decide)

theorem feedbackInsights_some (conv : Conversation) (s : ℚ)
    (h : conv.feedback_score = some s) :
    feedbackInsights conv =
      if s ≠ 0 then
        if s ≥ 4.5 then
          [⟨"strength", "此次对话表现优秀（" ++ toString s ++ "分），建议记录为最佳实践", 0.9,
            idList conv⟩]
        else if s ≤ 2.5 then
          [⟨"improvement", "此次对话需要改进（" ++ toString s ++ "分），建议加强相关培训", 0.85,
            idList conv⟩]
        else []
      else [] := by
  unfold feedbackInsights
  rw [h]

theorem feedbackInsights_none (conv : Conversation) (h : conv.feedback_score = none) :
    feedbackInsights conv = [] := by
  unfold feedbackInsights
  rw [h]

theorem filter_map_pattern (l : List String) (ty : String) (h : ¬ ("pattern" = ty)) :
    (l.map (fun issue => (⟨"pattern", issue, 0.75, []⟩ : LearningInsight))).filter
      (fun i => i.insight_type = ty) = [] := by
  induction l with
  | nil => rfl
  | cons a l ih =>
    simp only [List.map_cons, List.filter_cons]
    rw [if_neg (by simpa using h)]
    exact ih

/-- C1 counterexample: a conversation with a PRESENT feedback score of
exactly 0 — which is `≤ 2.5` — produces no improvement insight, because
`if conversation.feedback_score:` is false for the float `0.0`. -/
theorem C1_score_zero_cex :
    convZero.feedback_score = some 0 ∧ (0 : ℚ) ≤ 2.5 ∧
      (analyze_conversation convZero).filter
        (fun i => i.insight_type = "improvement") = [] :=
  ⟨rfl, by norm_num, by decide⟩

/-- C1 amended: for a present NONZERO feedback score the thresholds hold as
specified (`≥ 4.5` one strength insight at confidence 0.9 and no
improvement; `≤ 2.5` one improvement insight at confidence 0.85 and no
strength; strictly between, neither); a missing score or a score of exactly
0 emits neither kind. -/
theorem C1_feedback_thresholds :
    (∀ (conv : Conversation) (s : ℚ), conv.feedback_score = some s → s ≠ 0 →
       ((s ≥ 4.5 →
          ((analyze_conversation conv).filter
              (fun i => i.insight_type = "strength")).map LearningInsight.confidence =
            [0.9] ∧
          (analyze_conversation conv).filter
            (fun i => i.insight_type = "improvement") = []) ∧
        (s ≤ 2.5 →
          ((analyze_conversation conv).filter
              (fun i => i.insight_type = "improvement")).map LearningInsight.confidence =
            [0.85] ∧
          (analyze_conversation conv).filter
            (fun i => i.insight_type = "strength") = []) ∧
        (2.5 < s → s < 4.5 →
          (analyze_conversation conv).filter (fun i => i.insight_type = "strength") = [] ∧
          (analyze_conversation conv).filter
            (fun i => i.insight_type = "improvement") = []))) ∧
    (∀ conv : Conversation, conv.feedback_score = none ∨ conv.feedback_score = some 0 →
       (analyze_conversation conv).filter (fun i => i.insight_type = "strength") = [] ∧
       (analyze_conversation conv).filter (fun i => i.insight_type = "improvement") = []) := by
  constructor
  · intro conv s hscore hs0
    unfold analyze_conversation
    rw [feedbackInsights_some conv s hscore, if_pos hs0]
    simp only [List.filter_append]
    rw [filter_map_pattern _ _ (by decide), filter_map_pattern _ _ (by decide)]
    refine ⟨?_, ?_, ?_⟩
    · intro hge
      rw [if_pos hge]
      exact ⟨by simp [List.filter], by simp [List.filter]⟩
    · intro hle
      rw [if_neg (by intro hge; linarith), if_pos hle]
      exact ⟨by simp [List.filter], by simp [List.filter]⟩
    · intro hgt hlt
      rw [if_neg (by intro hge; linarith), if_neg (by intro hle; linarith)]
      exact ⟨by simp, by simp⟩
  · intro conv hcase
    unfold analyze_conversation
    have hfb : feedbackInsights conv = [] := by
      rcases hcase with h | h
      · exact feedbackInsights_none conv h
      · rw [feedbackInsights_some conv 0 h]
        simp
    rw [hfb]
    simp only [List.nil_append]
    exact ⟨filter_map_pattern _ _ (by decide), filter_map_pattern _ _ (by decide)⟩

/-- Witness for C1 at a concrete conversation with score 5. -/
theorem C1_feedback_thresholds_witness :
    ((analyze_conversation convFive).filter
        (fun i => i.insight_type = "strength")).map LearningInsight.confidence = [0.9] ∧
      (analyze_conversation convFive).filter
        (fun i => i.insight_type = "improvement") = [] :=
  (C1_feedback_thresholds.1 convFive 5 rfl (by norm_num)).1 (by norm_num)

theorem update_success_rate_mirror (scripts store : List (String × SalesScript))
    (id : String) (s : SalesScript) (b : Bool) (hs : lookupKey scripts id = some s) :
    lookupKey (update_success_rate scripts store id b).1 id =
      some { s with usage_count := s.usage_count + 1,
                    success_rate :=
                      (s.success_rate * (s.usage_count : ℚ) + (if b then 1 else 0)) /
                        ((s.usage_count : ℚ) + 1) } := by
  have hc : containsKey scripts id = true := containsKey_of_lookupKey_some hs
  have hg : get_script scripts store id = (some s, scripts) := by
    unfold get_script
    rw [if_pos hc, hs]
  unfold update_success_rate
  simp only [hg]
  rw [lookupKey_dictSet, if_pos rfl]
  have harith :
      (if b = true then
          (s.success_rate * (((s.usage_count + 1 : Nat) : ℚ) - 1) + 1) /
            ((s.usage_count + 1 : Nat) : ℚ)
        else
          (s.success_rate * (((s.usage_count + 1 : Nat) : ℚ) - 1)) /
            ((s.usage_count + 1 : Nat) : ℚ)) =
        (s.success_rate * (s.usage_count : ℚ) + (if b then 1 else 0)) /
          ((s.usage_count : ℚ) + 1) := by
    cases b
    · simp only [Bool.false_eq_true, if_false]
      push_cast
      ring_nf
    · simp only [if_true]
      push_cast
      ring_nf
  rw [harith]

theorem runUpdates_invariant (outs : List Bool) :
    ∀ (scripts store : List (String × SalesScript)) (id : String) (s : SalesScript),
    lookupKey scripts id = some s →
    0 ≤ s.success_rate → s.success_rate ≤ 1 →
    ∃ s1, lookupKey (runUpdates scripts store id outs).1 id = some s1 ∧
      s1.usage_count = s.usage_count + outs.length ∧
      s1.success_rate * ((s.usage_count : ℚ) + outs.length) =
        s.success_rate * s.usage_count + (outs.count true : ℚ) ∧
      0 ≤ s1.success_rate ∧ s1.success_rate ≤ 1 := by
  induction outs with
  | nil =>
    intro scripts store id s hs h0 h1
    exact ⟨s, hs, by simp, by simp, h0, h1⟩
  | cons b bs ih =>
    intro scripts store id s hs h0 h1
    have hstep := update_success_rate_mirror scripts store id s b hs
    have hu1 : (0 : ℚ) < (s.usage_count : ℚ) + 1 := by positivity
    have hbv0 : (0 : ℚ) ≤ (if b then 1 else 0) := by cases b <;> norm_num
    have hbv1 : (if b then (1 : ℚ) else 0) ≤ 1 := by cases b <;> norm_num
    have hnum0 : (0 : ℚ) ≤ s.success_rate * (s.usage_count : ℚ) + (if b then 1 else 0) := by
      have := mul_nonneg h0 (Nat.cast_nonneg s.usage_count)
      linarith
    have hnum1 : s.success_rate * (s.usage_count : ℚ) + (if b then 1 else 0) ≤
        (s.usage_count : ℚ) + 1 := by
      have : s.success_rate * (s.usage_count : ℚ) ≤ 1 * (s.usage_count : ℚ) :=
        mul_le_mul_of_nonneg_right h1 (Nat.cast_nonneg s.usage_count)
      rw [one_mul] at this
      linarith
    have hr0 : (0 : ℚ) ≤
        (s.success_rate * (s.usage_count : ℚ) + (if b then 1 else 0)) /
          ((s.usage_count : ℚ) + 1) := div_nonneg hnum0 hu1.le
    have hr1 : (s.success_rate * (s.usage_count : ℚ) + (if b then 1 else 0)) /
          ((s.usage_count : ℚ) + 1) ≤ 1 := (div_le_one hu1).mpr hnum1
    obtain ⟨s1, hl, hu, hr, hb0, hb1⟩ :=
      ih (update_success_rate scripts store id b).1 (update_success_rate scripts store id b).2
        id _ hstep hr0 hr1
    refine ⟨s1, ?_, ?_, ?_, hb0, hb1⟩
    · show lookupKey (runUpdates _ _ id bs).1 id = some s1
      exact hl
    · rw [hu]
      simp only [List.length_cons]
      omega
    · have hcancel :
          ((s.success_rate * (s.usage_count : ℚ) + (if b then 1 else 0)) /
              ((s.usage_count : ℚ) + 1)) * ((s.usage_count : ℚ) + 1) =
            s.success_rate * (s.usage_count : ℚ) + (if b then 1 else 0) :=
        div_mul_cancel₀ _ hu1.ne'
    -- fold the step mean into the tail mean
      simp only at hr
      rw [Nat.cast_add, Nat.cast_one] at hr
      have hcount : ((b :: bs).count true : ℚ) = (bs.count true : ℚ) + (if b then 1 else 0) := by
        rw [List.count_cons]
        push_cast
        cases b <;> simp
      have hlen : ((b :: bs).length : ℚ) = (bs.length : ℚ) + 1 := by
        push_cast [List.length_cons]
        ring
      rw [hlen, hcount]
      calc s1.success_rate * ((s.usage_count : ℚ) + ((bs.length : ℚ) + 1))
          = s1.success_rate * (((s.usage_count : ℚ) + 1) + (bs.length : ℚ)) := by ring
        _ = ((s.success_rate * (s.usage_count : ℚ) + (if b then 1 else 0)) /
              ((s.usage_count : ℚ) + 1)) * ((s.usage_count : ℚ) + 1) + (bs.count true : ℚ) := by
              rw [← hr]
        _ = s.success_rate * (s.usage_count : ℚ) + ((bs.count true : ℚ) + (if b then 1 else 0)) := by
              rw [hcancel]; ring

/-- C6: starting from a fresh script (0 uses, rate 0), any sequence of
`update_success_rate` outcomes leaves `usage_count` equal to the number of
updates and `success_rate` equal to the exact arithmetic mean of the boolean
outcomes, staying within `[0, 1]`; concretely `update(false)` gives
`(1, 0)` and a further `update(true)` gives `(2, 1/2)`. -/
theorem C6_running_mean :
    (∀ (scripts store : List (String × SalesScript)) (id : String) (s0 : SalesScript)
       (outs : List Bool),
       lookupKey scripts id = some s0 → s0.usage_count = 0 → s0.success_rate = 0 →
       ∃ s1, lookupKey (runUpdates scripts store id outs).1 id = some s1 ∧
         s1.usage_count = outs.length ∧
         0 ≤ s1.success_rate ∧ s1.success_rate ≤ 1 ∧
         s1.success_rate * (outs.length : ℚ) = (outs.count true : ℚ) ∧
         (outs ≠ [] → s1.success_rate = (outs.count true : ℚ) / (outs.length : ℚ))) ∧
    (∃ s1, lookupKey (runUpdates [("s", scriptFresh)] [] "s" [false]).1 "s" = some s1 ∧
       s1.usage_count = 1 ∧ s1.success_rate = 0) ∧
    (∃ s2, lookupKey (runUpdates [("s", scriptFresh)] [] "s" [false, true]).1 "s" =
         some s2 ∧ s2.usage_count = 2 ∧ s2.success_rate = 1 / 2) := by
  have main : ∀ (scripts store : List (String × SalesScript)) (id : String)
      (s0 : SalesScript) (outs : List Bool),
      lookupKey scripts id = some s0 → s0.usage_count = 0 → s0.success_rate = 0 →
      ∃ s1, lookupKey (runUpdates scripts store id outs).1 id = some s1 ∧
        s1.usage_count = outs.length ∧
        0 ≤ s1.success_rate ∧ s1.success_rate ≤ 1 ∧
        s1.success_rate * (outs.length : ℚ) = (outs.count true : ℚ) ∧
        (outs ≠ [] → s1.success_rate = (outs.count true : ℚ) / (outs.length : ℚ)) := by
    intro scripts store id s0 outs hs hu0 hr0
    obtain ⟨s1, hl, hu, hr, hb0, hb1⟩ :=
      runUpdates_invariant outs scripts store id s0 hs (by rw [hr0]) (by rw [hr0]; norm_num)
    rw [hu0] at hu
    rw [hu0, hr0] at hr
    push_cast at hr
    simp only [zero_add, zero_mul] at hr hu
    refine ⟨s1, hl, hu, hb0, hb1, hr, ?_⟩
    intro hne
    have hlen : (0 : ℚ) < (outs.length : ℚ) := by
      have : 0 < outs.length := List.length_pos.mpr hne
      exact_mod_cast this
    rw [eq_div_iff hlen.ne']
    exact hr
  refine ⟨main, ?_, ?_⟩
  · obtain ⟨s1, hl, hu, _, _, hr, _⟩ :=
      main [("s", scriptFresh)] [] "s" scriptFresh [false] rfl rfl rfl
    refine ⟨s1, hl, hu, ?_⟩
    have : s1.success_rate * ((1 : ℚ)) = 0 := by
      simpa using hr
    linarith
  · obtain ⟨s2, hl, hu, _, _, _, hdiv⟩ :=
      main [("s", scriptFresh)] [] "s" scriptFresh [false, true] rfl rfl rfl
    refine ⟨s2, hl, hu, ?_⟩
    have := hdiv (by simp)
    rw [this]
    norm_num

/-- Witness for C6 at a single successful update of a fresh script. -/
theorem C6_running_mean_witness :
    ∃ s1, lookupKey (runUpdates [("s", scriptFresh)] [] "s" [true]).1 "s" = some s1 ∧
      s1.usage_count = ([true] : List Bool).length ∧
      0 ≤ s1.success_rate ∧ s1.success_rate ≤ 1 ∧
      s1.success_rate * ((([true] : List Bool).length : ℚ)) =
        ((([true] : List Bool).count true : ℚ)) ∧
      (([true] : List Bool) ≠ [] →
        s1.success_rate =
          ((([true] : List Bool).count true : ℚ)) / ((([true] : List Bool).length : ℚ))) :=
  C6_running_mean.1 [("s", scriptFresh)] [] "s" scriptFresh [true] rfl rfl rfl

/-- C10: `update_success_rate` on an id that exists neither in the mirror
nor in the store returns without raising and leaves both untouched. -/
theorem C10_missing_script_noop :
    ∀ (scripts store : List (String × SalesScript)) (script_id : String) (success : Bool),
      containsKey scripts script_id = false → containsKey store script_id = false →
      update_success_rate scripts store script_id success = (scripts, store) := by
  intro scripts store id b h1 h2
  have hg : get_script scripts store id = (none, scripts) := by
    unfold get_script
    rw [h1]
    simp only [Bool.false_eq_true, if_false]
    rw [lookupKey_eq_none_of_not_contains h2]
  unfold update_success_rate
  rw [hg]

/-- Witness for C10 on empty mirror and store. -/
theorem C10_missing_script_noop_witness :
    update_success_rate [] [] "x" true = ([], []) :=
  C10_missing_script_noop [] [] "x" true rfl rfl

/-- C7 counterexample: with the second style generation failing, the variant
that DID generate (`V1`) is not kept — the whole list is replaced by the
three fallbacks, refuting per-piece substitution. -/
theorem C7_variant_failure_cex :
    generate_variants [some "V1", none, some "V3"] "base" = fallbackVariants "base" ∧
      "V1" ∉ generate_variants [some "V1", none, some "V3"] "base" :=
  ⟨by decide, by decide⟩

/-- C7 amended: the `try` of `_generate_variants` wraps the whole loop, so
one failed style generation replaces ALL variants (including those already
generated) by the three truncated fallbacks; when every generation succeeds
the three generated variants are returned; either way the call completes
normally. -/
theorem C7_variant_failure :
    (∀ (outcomes : List (Option String)) (script : String),
       none ∈ outcomes → generate_variants outcomes script = fallbackVariants script) ∧
    (∀ (vs : List String) (script : String),
       generate_variants (vs.map some) script = vs.take 3) := by
  constructor
  · intro outcomes script hmem
    have hloop : variantLoop outcomes = none := by
      induction outcomes with
      | nil => simp at hmem
      | cons o rest ih =>
        cases o with
        | none => rfl
        | some v =>
          simp only [List.mem_cons] at hmem
          rcases hmem with h | h
          · exact Option.noConfusion h
          · show (variantLoop rest).map _ = none
            rw [ih h]
            rfl
    unfold generate_variants
    rw [hloop]
    rfl
  · intro vs script
    have hloop : variantLoop (vs.map some) = some vs := by
      induction vs with
      | nil => rfl
      | cons v rest ih =>
        show (variantLoop (rest.map some)).map _ = _
        rw [ih]
        rfl
    unfold generate_variants
    rw [hloop]

/-- Witness for C7 with a failure in the second of three generations. -/
theorem C7_variant_failure_witness :
    generate_variants [some "a", none, some "c"] "s" = fallbackVariants "s" :=
  C7_variant_failure.1 [some "a", none, some "c"] "s" (by decide)

/-- C8: evaluated on a most-recent-first history, `_build_context` takes its
scenario line from `history[-1]`, the OLDEST loaded conversation
(`cold-call`), not the most recent one (`pricing-call`). -/
theorem C8_scenario_from_oldest :
    build_context [] [convNew, convOld] = "最近對話場景：cold-call" ∧
      build_context [] [convNew, convOld] ≠ "最近對話場景：pricing-call" :=
  ⟨by decide, by decide⟩

end SalesCoach
